import Mathlib

/-!
Verification of the Knowledge Indexer & Fuzzy Retrieval Engine
(`arduino_doc.py`): a shallow embedding of the section extractor, table
serializer, knowledge-index cache, fuzzy ranker and result presenter,
together with theorems settling the claims of the specification.

Python string operations are modelled over character lists (`String.mk`
of a `List Char`), matching the Python code-point semantics for `strip`,
`lower`, `replace`, slicing, `in` and `startswith`.  Real-valued scores
(rapidfuzz similarity values) are modelled exactly over `ℚ`.
-/

/-! ## Python string primitives -/

/-- Whitespace in the sense of Python `str.strip` (ASCII subset). -/
def pyIsSpace (c : Char) : Bool := c = ' ' || c = '\t' || c = '\n' || c = '\r'

/-- Python `s.strip()`: drop leading and trailing whitespace. -/
def pyStrip (s : String) : String :=
  String.mk (((s.toList.dropWhile pyIsSpace).reverse.dropWhile pyIsSpace).reverse)

/-- Python `s.lower()`. -/
def pyLower (s : String) : String := String.mk (s.toList.map Char.toLower)

/-- Python `s.replace("\n", " ")` (single-character pattern, so a map). -/
def pyReplaceNewlineWithSpace (s : String) : String :=
  String.mk (s.toList.map (fun c => if c = '\n' then ' ' else c))

/-- Python `s[:n]` for `n ≥ 0`: the first `n` code points. -/
def pyTakeChars (s : String) (n : Nat) : String := String.mk (s.toList.take n)

/-- Python `len(s)`: number of code points. -/
def pyLen (s : String) : Nat := s.toList.length

/-- Test whether the list `p` is an initial segment of `c`. -/
def listStarts : List Char → List Char → Bool
  | [], _ => true
  | _ :: _, [] => false
  | p :: ps, c :: cs => p == c && listStarts ps cs

/-- Python `s.startswith(pat)`. -/
def pyStarts (s pat : String) : Bool := listStarts pat.toList s.toList

/-- Test whether the list `n` occurs contiguously inside `h`. -/
def listOccurs : List Char → List Char → Bool
  | needle, [] => listStarts needle []
  | needle, c :: cs => listStarts needle (c :: cs) || listOccurs needle cs

/-- Python `needle in hay` for strings. -/
def pyIn (needle hay : String) : Bool := listOccurs needle.toList hay.toList

/-! ## Data model: sections and document blocks -/

/-- One record of the knowledge index, as appended by
`save_current_section` in `build_knowledge_index`. -/
structure Section where
  main_topic : String
  sub_topic : String
  content : String
  search_key : String
deriving DecidableEq, Repr

/-- A child of the document body, as classified by the extraction loop:
a paragraph (text plus its style name and the bold flag of its first
run), a table (grid of cell texts), or a drawing-bearing node. -/
inductive Block where
  | para (text : String) (styleName : String) (firstRunBold : Bool)
  | table (rows : List (List String))
  | drawing
deriving DecidableEq, Repr

/-! ## Table serializer (`parse_table_to_markdown`) -/

/-- Cell cleanup: `cell.text.strip().replace("\n", " ")`. -/
def tableCellText (c : String) : String := pyReplaceNewlineWithSpace (pyStrip c)

/-- One `|`-delimited row line. -/
def tableRowLine (row : List String) : String :=
  "| " ++ String.intercalate " | " (row.map tableCellText) ++ " |"

/-- The `---` separator line for `ncols` columns. -/
def tableSepLine (ncols : Nat) : String :=
  "| " ++ String.intercalate " | " (List.replicate ncols "---") ++ " |"

/-- The loop body of `parse_table_to_markdown`: one line per row, with
the separator inserted right after row index `0`. -/
def tableLines : Nat → List (List String) → List String
  | _, [] => []
  | i, row :: rest =>
    (if i = 0 then [tableRowLine row, tableSepLine (row.map tableCellText).length]
     else [tableRowLine row]) ++ tableLines (i + 1) rest

/-- The serializer `parse_table_to_markdown`: rows joined by newlines, wrapped in one
leading and one trailing newline. -/
def parse_table_to_markdown (rows : List (List String)) : String :=
  "\n" ++ String.intercalate "\n" (tableLines 0 rows) ++ "\n"

/-! ## Section extractor (`build_knowledge_index` parsing loop) -/

/-- The running state of the extraction loop. -/
structure ExtractState where
  current_main_topic : String
  current_sub_topic : String
  current_content : List String
  index : List Section
deriving DecidableEq, Repr

/-- The record appended by `save_current_section`: `sub_topic` falls
back to the main topic when the raw sub-topic is empty, while
`search_key` is built from the raw sub-topic. -/
def sectionOf (main sub text : String) : Section :=
  { main_topic := main
    sub_topic := if sub = "" then main else sub
    content := text
    search_key := pyLower (main ++ " " ++ sub) }

/-- The flush `save_current_section`: append the accumulated content as a new
index record when it is non-empty after joining and trimming. -/
def save_current_section (st : ExtractState) : List Section :=
  if st.current_content = [] then st.index
  else if pyStrip (String.intercalate "\n" st.current_content) = "" then st.index
  else
    st.index ++ [sectionOf st.current_main_topic st.current_sub_topic
      (pyStrip (String.intercalate "\n" st.current_content))]

/-- Python `para.style.name.startswith("Heading 1")`. -/
def isHeading1Style (style : String) : Bool := pyStarts style "Heading 1"

/-- Python `para.style.name.startswith("Heading") or (is_bold and len(text) < 60)`. -/
def isSubHeadingPara (style : String) (bold : Bool) (text : String) : Bool :=
  pyStarts style "Heading" || (bold && decide (pyLen text < 60))

/-- One step of the extraction loop over a body child. -/
def processBlock (st : ExtractState) (b : Block) : ExtractState :=
  match b with
  | .para rawText style bold =>
    if pyStrip rawText = "" then st
    else if isHeading1Style style then
      { current_main_topic := pyStrip rawText
        current_sub_topic := ""
        current_content := []
        index := save_current_section st }
    else if isSubHeadingPara style bold (pyStrip rawText) then
      { st with
        current_sub_topic := pyStrip rawText
        current_content := []
        index := save_current_section st }
    else { st with current_content := st.current_content ++ [pyStrip rawText] }
  | .table rows =>
    { st with current_content := st.current_content ++ [parse_table_to_markdown rows] }
  | .drawing =>
    { st with current_content := st.current_content ++
        ["\n> [Graph in this section: " ++
          (if st.current_sub_topic = "" then "Unlabeled Section" else st.current_sub_topic) ++
          "] (Please search in original document)\n"] }

/-- Initial extraction state: `current_main_topic = "General Overview"`,
empty sub-topic, empty content, empty index. -/
def initialExtractState : ExtractState :=
  { current_main_topic := "General Overview", current_sub_topic := "",
    current_content := [], index := [] }

/-- The pure parsing core of `build_knowledge_index`: fold the loop over
the body children, then flush once more at end of stream. -/
def build_index_from_blocks (blocks : List Block) : List Section :=
  save_current_section (blocks.foldl processBlock initialExtractState)

/-! ## Fuzzy ranker (`smart_search`) -/

/-- A search result: one index record together with its added `score`
field (the Python code builds `{**item, "score": final_score}`). -/
structure ScoredSection where
  sec : Section
  score : ℚ
deriving DecidableEq, Repr

/-- The `final_score` of one index record for a query:
`t_score * 0.7 + c_score * 0.3` where `t_score = fuzz.WRatio(query, sub_topic)`
and `c_score = fuzz.partial_ratio(query.lower(), content.lower())`.  The two
rapidfuzz similarity functions are external collaborators, passed in as
parameters; real arithmetic is modelled exactly over `ℚ`. -/
def sectionScore (WRatio partialRatio : String → String → ℚ) (query : String)
    (item : Section) : ℚ :=
  WRatio query item.sub_topic * (7 / 10) +
    partialRatio (pyLower query) (pyLower item.content) * (3 / 10)

/-- The main-topic filter guard: Python
`if main_filter and main_filter.lower() not in item["main_topic"].lower(): continue`.
An absent or empty (falsy) filter passes everything. -/
def passesMainFilter (main_filter : Option String) (item : Section) : Bool :=
  match main_filter with
  | none => true
  | some f => if f = "" then true else pyIn (pyLower f) (pyLower item.main_topic)

/-- The candidate-collection loop of `smart_search`: sections passing the
main-topic filter whose `final_score` clears the `> 40` floor, in
encounter order, each carrying its score. -/
def searchCandidates (WRatio partialRatio : String → String → ℚ) (query : String)
    (main_filter : Option String) (kb : List Section) : List ScoredSection :=
  kb.filterMap (fun item =>
    if passesMainFilter main_filter item then
      if 40 < sectionScore WRatio partialRatio query item then
        some ⟨item, sectionScore WRatio partialRatio query item⟩
      else none
    else none)

/-- Stable insertion for a descending sort by score: an element is
placed after all strictly higher scores and before equal ones coming
later, matching the stable Python `sorted(..., reverse=True)`. -/
def insertScoredDesc (x : ScoredSection) : List ScoredSection → List ScoredSection
  | [] => [x]
  | y :: ys => if x.score < y.score then y :: insertScoredDesc x ys else x :: y :: ys

/-- Stable descending sort by score (extensionally equal to the stable
Python `sorted(results, key=score, reverse=True)`). -/
def sortScoredDesc : List ScoredSection → List ScoredSection
  | [] => []
  | x :: xs => insertScoredDesc x (sortScoredDesc xs)

/-- Python `l[:k]` for an `int` bound: non-negative `k` takes the first
`k` elements; negative `k` drops the last `|k|` elements. -/
def pySliceTo (l : List ScoredSection) (k : Int) : List ScoredSection :=
  if k < 0 then l.take (l.length - k.natAbs) else l.take k.toNat

/-- The pure core of `smart_search` over an already-built index `kb`:
collect candidates, sort by score descending (stable), return the first
`top_k` (Python default `top_k = 3`). -/
def smart_search_kb (WRatio partialRatio : String → String → ℚ) (query : String)
    (main_filter : Option String) (top_k : Int) (kb : List Section) : List ScoredSection :=
  pySliceTo (sortScoredDesc (searchCandidates WRatio partialRatio query main_filter kb)) top_k

/-! ## Knowledge index cache (`build_knowledge_index` cache layer) -/

/-- The state of the source document as the module observes it:
existence of the file, its modification timestamp, and the parsed body
children.  `doc_blocks = none` models `Document(DOC_PATH)` raising (an
existing but unreadable/corrupt file). -/
structure DocSource where
  doc_exists : Bool
  mtime : Nat
  doc_blocks : Option (List Block)

/-- The module-level cache globals `_knowledge_index` and `_last_mtime`
(both initially `None`). -/
structure CacheState where
  knowledge_index : Option (List Section)
  last_mtime : Option Nat
deriving DecidableEq, Repr

/-- The initial module state: `_knowledge_index = None`, `_last_mtime = None`. -/
def initialCacheState : CacheState :=
  { knowledge_index := none, last_mtime := none }

/-- The cache entry point `build_knowledge_index`: missing document returns `[]` untouched;
a valid cache (`_knowledge_index is not None and _last_mtime == mtime`)
returns the cached list unchanged; otherwise the globals are assigned
(`_last_mtime = mtime; _knowledge_index = []`) *before* parsing, the
document is parsed (`Except.error` models the unhandled exception from
`Document(...)` on an unreadable file), and on success the fresh index
is stored and returned. -/
def build_knowledge_index (fs : DocSource) (st : CacheState) :
    Except Unit (List Section) × CacheState :=
  if fs.doc_exists = false then (Except.ok [], st)
  else if st.knowledge_index.isSome && decide (st.last_mtime = some fs.mtime) then
    (Except.ok (st.knowledge_index.getD []), st)
  else
    match fs.doc_blocks with
    | none => (Except.error (), { knowledge_index := some [], last_mtime := some fs.mtime })
    | some blocks =>
      let index := build_index_from_blocks blocks
      (Except.ok index, { knowledge_index := some index, last_mtime := some fs.mtime })

/-- Stateful `smart_search`: obtain the index via the cache, then run
the pure ranking core; a parse failure inside the cache propagates. -/
def smart_search (WRatio partialRatio : String → String → ℚ) (fs : DocSource)
    (st : CacheState) (query : String) (main_filter : Option String) (top_k : Int) :
    Except Unit (List ScoredSection) × CacheState :=
  match build_knowledge_index fs st with
  | (Except.error e, st1) => (Except.error e, st1)
  | (Except.ok kb, st1) =>
    (Except.ok (smart_search_kb WRatio partialRatio query main_filter top_k kb), st1)

/-! ## Result presenter (`format_results_as_markdown`) -/

/-- The per-section truncation of the presenter: content longer than
2000 characters is cut at 2000 and a truncation marker is appended. -/
def truncatedContent (content : String) : String :=
  if 2000 < pyLen content then
    pyTakeChars content 2000 ++ "\n...(content truncated due to length)..."
  else content

/-- The three markdown lines appended for the `i`-th (1-based) result. -/
def resultBlockLines (i : Nat) (r : ScoredSection) : List String :=
  ["## " ++ toString i ++ ". " ++ r.sec.main_topic ++ " > " ++ r.sec.sub_topic,
   truncatedContent r.sec.content ++ "\n",
   "---"]

/-- The presenter loop `for i, r in enumerate(results, 1)`. -/
def resultLines : Nat → List ScoredSection → List String
  | _, [] => []
  | i, r :: rest => resultBlockLines i r ++ resultLines (i + 1) rest

/-- The presenter `format_results_as_markdown`: a status line for an empty result
list, otherwise a title header followed by the per-result blocks,
joined by newlines. -/
def format_results_as_markdown (title : String) (results : List ScoredSection)
    (error_msg : String) : String :=
  if results = [] then "**Status**: " ++ error_msg ++ "\nQuery: " ++ title
  else
    String.intercalate "\n"
      (("# Search Results for: \x27" ++ title ++ "\x27\n") :: resultLines 1 results)

/-! ## Filtered search (`check_limits_and_compliance`) -/

/-- One step of the Python dict comprehension
`{r["content"]: r for r in results}`: an already-seen content keeps its
position but its record is overwritten by the later one; a new content
is appended. -/
def pyDictInsertByContent (acc : List ScoredSection) (r : ScoredSection) :
    List ScoredSection :=
  if acc.any (fun x => decide (x.sec.content = r.sec.content)) then
    acc.map (fun x => if x.sec.content = r.sec.content then r else x)
  else acc ++ [r]

/-- Python `list({r["content"]: r for r in results}.values())`: deduplication
by exact content equality with dict insertion-order semantics. -/
def dedupByContent (l : List ScoredSection) : List ScoredSection :=
  l.foldl pyDictInsertByContent []

/-- The section list that `check_limits_and_compliance` hands to the
presenter: the two filtered searches (default `top_k = 3` each)
concatenated, then deduplicated by content. -/
def check_limits_sections (WRatio partialRatio : String → String → ℚ)
    (kb : List Section) (topic : String) : List ScoredSection :=
  dedupByContent
    (smart_search_kb WRatio partialRatio topic (some "restrictions") 3 kb ++
     smart_search_kb WRatio partialRatio topic (some "limits") 3 kb)

/-- The tool `check_limits_and_compliance` over an already-built index. -/
def check_limits_and_compliance (WRatio partialRatio : String → String → ℚ)
    (kb : List Section) (topic : String) : String :=
  format_results_as_markdown topic (check_limits_sections WRatio partialRatio kb topic)
    "No compliance or limit information found."

/-! ## Predicates used by the claims -/

/-- A body child that the extraction loop classifies as a heading
(level-1 heading, other heading style, or short bold lead-in). -/
def isHeadingBlock : Block → Bool
  | .para rawText style bold =>
    decide (pyStrip rawText ≠ "") &&
      (isHeading1Style style || isSubHeadingPara style bold (pyStrip rawText))
  | _ => false

/-- The provenance of a `main_topic` value: the initial placeholder, or
the non-blank trimmed text of some level-1-styled paragraph of the
document. -/
def MainTopicOk (blocks : List Block) (m : String) : Prop :=
  m = "General Overview" ∨
    ∃ raw style bold, Block.para raw style bold ∈ blocks ∧
      isHeading1Style style = true ∧ pyStrip raw = m ∧ m ≠ ""

/-- The per-record invariant of claim C10, relative to the block list
of the document. -/
def SectionOk (blocks : List Block) (s : Section) : Prop :=
  s.main_topic ≠ "" ∧ s.sub_topic ≠ "" ∧ s.content ≠ "" ∧
    MainTopicOk blocks s.main_topic ∧
    ∃ lines, s.content = pyStrip (String.intercalate "\n" lines)

/-- The shape-only part of the record invariant (no block provenance),
used to state preservation across cache rebuilds. -/
def SectionOkAbs (s : Section) : Prop :=
  s.main_topic ≠ "" ∧ s.sub_topic ≠ "" ∧ s.content ≠ ""

/-- The extraction-state invariant carried through the parsing fold. -/
def StateOk (blocks : List Block) (st : ExtractState) : Prop :=
  MainTopicOk blocks st.current_main_topic ∧ ∀ s ∈ st.index, SectionOk blocks s

/-- What actually holds of `search_key`: it is built from the raw
sub-topic state at flush time, while the stored `sub_topic` is that raw
value with the fallback applied. -/
def SearchKeyOk (s : Section) : Prop :=
  ∃ rawSub, s.search_key = pyLower (s.main_topic ++ " " ++ rawSub) ∧
    s.sub_topic = if rawSub = "" then s.main_topic else rawSub

/-! ## Concrete fixtures used by witnesses and counterexamples -/

/-- A constant similarity function (models a rapidfuzz scorer on inputs
where it returns the given value). -/
def constScore (q : ℚ) : String → String → ℚ := fun _ _ => q

/-- The block sequence of the heading-nesting scenario:
`[H1:"A", P:"x", H2:"B", P:"y", H1:"C", P:"z"]`. -/
def blocksHeadingNesting : List Block :=
  [Block.para "A" "Heading 1" false, Block.para "x" "Normal" false,
   Block.para "B" "Heading 2" false, Block.para "y" "Normal" false,
   Block.para "C" "Heading 1" false, Block.para "z" "Normal" false]

/-- A sample indexed section. -/
def secSample : Section :=
  { main_topic := "GA4 Limits", sub_topic := "Data Retention",
    content := "retention is 14 months", search_key := "ga4 limits data retention" }

/-- Six distinct-content sections, three per filtered main topic. -/
def kbSix : List Section :=
  [{ main_topic := "Cookie Restrictions", sub_topic := "s1", content := "c1", search_key := "k1" },
   { main_topic := "Cookie Restrictions", sub_topic := "s2", content := "c2", search_key := "k2" },
   { main_topic := "Cookie Restrictions", sub_topic := "s3", content := "c3", search_key := "k3" },
   { main_topic := "GA4 Limits", sub_topic := "s4", content := "c4", search_key := "k4" },
   { main_topic := "GA4 Limits", sub_topic := "s5", content := "c5", search_key := "k5" },
   { main_topic := "GA4 Limits", sub_topic := "s6", content := "c6", search_key := "k6" }]

/-- Two sections under one main topic. -/
def kbTwo : List Section :=
  [{ main_topic := "M", sub_topic := "s1", content := "c1", search_key := "k" },
   { main_topic := "M", sub_topic := "s2", content := "c2", search_key := "k" }]

/-- A present, readable document whose body is `[H1:"A", P:"x"]`. -/
def docABx : DocSource :=
  { doc_exists := true, mtime := 5,
    doc_blocks := some [Block.para "A" "Heading 1" false, Block.para "x" "Normal" false] }

/-- A present, readable document with an empty body. -/
def docEmptyBody : DocSource :=
  { doc_exists := true, mtime := 3, doc_blocks := some [] }

/-- A missing document. -/
def docMissing : DocSource :=
  { doc_exists := false, mtime := 0, doc_blocks := none }

/-- A present document on which parsing raises (unreadable/corrupt). -/
def docBroken : DocSource :=
  { doc_exists := true, mtime := 0, doc_blocks := none }

/-! ## Helper lemmas: the extraction loop -/

theorem save_current_section_of_content_empty (st : ExtractState)
    (h : st.current_content = []) : save_current_section st = st.index := by
  unfold save_current_section
  rw [if_pos h]

theorem mem_save_current_section {st : ExtractState} {s : Section}
    (h : s ∈ save_current_section st) :
    s ∈ st.index ∨
      (s = sectionOf st.current_main_topic st.current_sub_topic
          (pyStrip (String.intercalate "\n" st.current_content)) ∧
        pyStrip (String.intercalate "\n" st.current_content) ≠ "") := by
  unfold save_current_section at h
  split at h
  · exact Or.inl h
  · split at h
    · exact Or.inl h
    · rename_i hne
      rcases List.mem_append.mp h with h0 | h0
      · exact Or.inl h0
      · exact Or.inr ⟨List.mem_singleton.mp h0, hne⟩

theorem processBlock_index (st : ExtractState) (b : Block) :
    (processBlock st b).index = st.index ∨
      (processBlock st b).index = save_current_section st := by
  cases b with
  | para rawText style bold =>
    by_cases h1 : pyStrip rawText = ""
    · left
      simp [processBlock, h1]
    · by_cases h2 : isHeading1Style style = true
      · right
        simp [processBlock, h1, h2]
      · by_cases h3 : isSubHeadingPara style bold (pyStrip rawText) = true
        · right
          simp [processBlock, h1, h2, h3]
        · left
          simp [processBlock, h1, h2, h3]
  | table rows =>
    left
    simp [processBlock]
  | drawing =>
    left
    simp [processBlock]

theorem isHeadingBlock_clears_content (st : ExtractState) (b : Block)
    (h : isHeadingBlock b = true) : (processBlock st b).current_content = [] := by
  cases b with
  | para rawText style bold =>
    simp only [isHeadingBlock, Bool.and_eq_true, decide_eq_true_eq, Bool.or_eq_true] at h
    obtain ⟨hne, hor⟩ := h
    by_cases h1 : isHeading1Style style = true
    · simp [processBlock, hne, h1]
    · have h3 : isSubHeadingPara style bold (pyStrip rawText) = true := by
        rcases hor with h | h
        · exact absurd h h1
        · exact h
      simp [processBlock, hne, h1, h3]
  | table rows => simp [isHeadingBlock] at h
  | drawing => simp [isHeadingBlock] at h

theorem foldl_index_invariant (P : Section → Prop)
    (hsave : ∀ st, (∀ s ∈ st.index, P s) → ∀ s ∈ save_current_section st, P s) :
    ∀ (l : List Block) (st : ExtractState), (∀ s ∈ st.index, P s) →
      ∀ s ∈ (List.foldl processBlock st l).index, P s := by
  intro l
  induction l with
  | nil =>
    intro st h
    simpa using h
  | cons b t ih =>
    intro st h
    rw [List.foldl_cons]
    apply ih
    rcases processBlock_index st b with he | he
    · rw [he]
      exact h
    · rw [he]
      exact hsave st h

/-! ## Claim C2: heading nesting in the section extractor -/

/-- C2: extracting `[H1:"A", P:"x", H2:"B", P:"y", H1:"C", P:"z"]`
yields exactly `{A,A,x}`, `{A,B,y}` and — via the end-of-stream flush —
`{C,C,z}`, in that order (`search_key` values as computed by the code);
and in general a heading block processed immediately after another
heading block appends no section for the first heading, since the
content buffer is empty. -/
theorem heading_nesting_extraction :
    build_index_from_blocks blocksHeadingNesting =
      [{ main_topic := "A", sub_topic := "A", content := "x", search_key := "a " },
       { main_topic := "A", sub_topic := "B", content := "y", search_key := "a b" },
       { main_topic := "C", sub_topic := "C", content := "z", search_key := "c " }] ∧
    ∀ (st : ExtractState) (b1 b2 : Block),
      isHeadingBlock b1 = true → isHeadingBlock b2 = true →
      (processBlock (processBlock st b1) b2).index = (processBlock st b1).index := by
  refine ⟨by decide, ?_⟩
  intro st b1 b2 h1 _h2
  have hc : (processBlock st b1).current_content = [] :=
    isHeadingBlock_clears_content st b1 h1
  rcases processBlock_index (processBlock st b1) b2 with h | h
  · exact h
  · rw [h, save_current_section_of_content_empty _ hc]

/-- Witness for C2: the general no-flush property applied to a concrete
`H1` followed immediately by an `H2`. -/
theorem heading_nesting_extraction_witness :
    (processBlock (processBlock initialExtractState (Block.para "A" "Heading 1" false))
        (Block.para "B" "Heading 2" false)).index =
      (processBlock initialExtractState (Block.para "A" "Heading 1" false)).index :=
  heading_nesting_extraction.2 initialExtractState
    (Block.para "A" "Heading 1" false) (Block.para "B" "Heading 2" false)
    (by decide) (by decide)

/-! ## Claim C7: the table serializer -/

theorem tableLines_of_ne_zero :
    ∀ (t : List (List String)) (i : Nat), i ≠ 0 →
      tableLines i t = t.map tableRowLine := by
  intro t
  induction t with
  | nil =>
    intro i h
    simp [tableLines]
  | cons row rest ih =>
    intro i h
    simp [tableLines, h, ih (i + 1) (by omega)]

/-- C7: a table with at least one row serializes to one `|`-line per
row with the `---` separator (one per header column) directly after the
header line, the whole block wrapped in one leading and one trailing
newline; the 2×2 example produces the expected 3-line block, and a
zero-row table yields the empty wrapped block. -/
theorem table_serializer_shape :
    (∀ (hrow : List String) (rest : List (List String)),
      parse_table_to_markdown (hrow :: rest) =
        "\n" ++ String.intercalate "\n"
          (tableRowLine hrow :: tableSepLine hrow.length :: rest.map tableRowLine) ++
          "\n") ∧
    parse_table_to_markdown [] = "\n\n" ∧
    parse_table_to_markdown [["Name", "Val"], ["X", "1"]] =
      "\n| Name | Val |\n| --- | --- |\n| X | 1 |\n" ∧
    tableSepLine 2 = "| --- | --- |" := by
  refine ⟨?_, by decide, by decide, by decide⟩
  intro hrow rest
  simp [parse_table_to_markdown, tableLines, tableLines_of_ne_zero rest 1 (by omega)]

/-! ## Claim C8: the `search_key` derivation -/

/-- Counterexample for C8: on `[H1:"A", P:"x"]` the single extracted
section has `sub_topic = "A"` (the fallback) but `search_key = "a "`,
not the lower-cased `main_topic ++ " " ++ sub_topic = "a a"`. -/
theorem search_key_counterexample :
    (build_index_from_blocks
        [Block.para "A" "Heading 1" false, Block.para "x" "Normal" false]).map
        Section.search_key = ["a "] ∧
    (build_index_from_blocks
        [Block.para "A" "Heading 1" false, Block.para "x" "Normal" false]).map
        (fun s => pyLower (s.main_topic ++ " " ++ s.sub_topic)) = ["a a"] ∧
    ("a " : String) ≠ "a a" := by decide

theorem save_searchKeyOk (st : ExtractState) (h : ∀ s ∈ st.index, SearchKeyOk s) :
    ∀ s ∈ save_current_section st, SearchKeyOk s := by
  intro s hs
  rcases mem_save_current_section hs with h0 | ⟨rfl, _⟩
  · exact h s h0
  · exact ⟨st.current_sub_topic, rfl, rfl⟩

theorem build_index_searchKeyOk (blocks : List Block) (s : Section)
    (hs : s ∈ build_index_from_blocks blocks) : SearchKeyOk s := by
  unfold build_index_from_blocks at hs
  exact save_searchKeyOk _
    (foldl_index_invariant SearchKeyOk save_searchKeyOk blocks initialExtractState
      (by simp [initialExtractState])) s hs

/-- C8 amended: the `search_key` of every materialized section is the
lower-cased `main_topic ++ " " ++ rawSub` for the *raw* sub-topic state
at flush time, while the stored `sub_topic` is that raw value with the
fallback to `main_topic` applied; so when no sub-heading has been seen
the `search_key` ends in a space after the lower-cased main topic and
does not reflect the fallback `sub_topic`. -/
theorem search_key_amended :
    ∀ (blocks : List Block) (s : Section),
      s ∈ build_index_from_blocks blocks → SearchKeyOk s :=
  build_index_searchKeyOk

/-- Witness for C8 amended, at the concrete `[H1:"A", P:"x"]` document. -/
theorem search_key_amended_witness :
    SearchKeyOk { main_topic := "A", sub_topic := "A", content := "x", search_key := "a " } :=
  search_key_amended [Block.para "A" "Heading 1" false, Block.para "x" "Normal" false]
    { main_topic := "A", sub_topic := "A", content := "x", search_key := "a " } (by decide)

/-! ## Claim C10: the section invariant -/

theorem MainTopicOk_ne_empty {blocks : List Block} {m : String}
    (h : MainTopicOk blocks m) : m ≠ "" := by
  rcases h with rfl | ⟨raw, style, bold, _, _, _, hne⟩
  · decide
  · exact hne

theorem save_sectionOk {blocks : List Block} {st : ExtractState}
    (hst : StateOk blocks st) :
    ∀ s ∈ save_current_section st, SectionOk blocks s := by
  intro s hs
  rcases mem_save_current_section hs with h0 | ⟨rfl, hne⟩
  · exact hst.2 s h0
  · refine ⟨MainTopicOk_ne_empty hst.1, ?_, hne, hst.1, ⟨st.current_content, rfl⟩⟩
    show (if st.current_sub_topic = "" then st.current_main_topic else st.current_sub_topic) ≠ ""
    split
    · exact MainTopicOk_ne_empty hst.1
    · rename_i hsub
      exact hsub

theorem processBlock_StateOk {blocks : List Block} (st : ExtractState) (b : Block)
    (hb : b ∈ blocks) (hst : StateOk blocks st) : StateOk blocks (processBlock st b) := by
  cases b with
  | para rawText style bold =>
    by_cases h1 : pyStrip rawText = ""
    · simpa [processBlock, h1] using hst
    · by_cases h2 : isHeading1Style style = true
      · have hstate : processBlock st (Block.para rawText style bold) =
            { current_main_topic := pyStrip rawText
              current_sub_topic := ""
              current_content := []
              index := save_current_section st } := by
          simp [processBlock, h1, h2]
        rw [hstate]
        exact ⟨Or.inr ⟨rawText, style, bold, hb, h2, rfl, h1⟩, save_sectionOk hst⟩
      · by_cases h3 : isSubHeadingPara style bold (pyStrip rawText) = true
        · have hstate : processBlock st (Block.para rawText style bold) =
              { st with
                current_sub_topic := pyStrip rawText
                current_content := []
                index := save_current_section st } := by
            simp [processBlock, h1, h2, h3]
          rw [hstate]
          exact ⟨hst.1, save_sectionOk hst⟩
        · have hstate : processBlock st (Block.para rawText style bold) =
              { st with current_content := st.current_content ++ [pyStrip rawText] } := by
            simp [processBlock, h1, h2, h3]
          rw [hstate]
          exact ⟨hst.1, hst.2⟩
  | table rows => exact ⟨hst.1, hst.2⟩
  | drawing => exact ⟨hst.1, hst.2⟩

theorem foldl_StateOk (blocks : List Block) :
    ∀ (l : List Block) (st : ExtractState), (∀ b ∈ l, b ∈ blocks) → StateOk blocks st →
      StateOk blocks (List.foldl processBlock st l) := by
  intro l
  induction l with
  | nil =>
    intro st _ h
    simpa using h
  | cons b t ih =>
    intro st hsub h
    rw [List.foldl_cons]
    exact ih _ (fun x hx => hsub x (List.mem_cons_of_mem b hx))
      (processBlock_StateOk st b (hsub b (List.mem_cons_self b t)) h)

theorem SectionOk_toAbs {blocks : List Block} {s : Section}
    (h : SectionOk blocks s) : SectionOkAbs s :=
  ⟨h.1, h.2.1, h.2.2.1⟩

theorem build_index_sectionOk (blocks : List Block) (s : Section)
    (hs : s ∈ build_index_from_blocks blocks) : SectionOk blocks s := by
  unfold build_index_from_blocks at hs
  have h0 : StateOk blocks initialExtractState := by
    refine ⟨Or.inl rfl, ?_⟩
    simp [initialExtractState]
  exact save_sectionOk (foldl_StateOk blocks blocks initialExtractState (fun _ h => h) h0) s hs

/-! ## Helper lemmas: the cache layer -/

theorem build_cache_hit {fs : DocSource} {st : CacheState} {idx : List Section}
    (hex : fs.doc_exists = true) (hidx : st.knowledge_index = some idx)
    (hmt : st.last_mtime = some fs.mtime) :
    build_knowledge_index fs st = (Except.ok idx, st) := by
  simp [build_knowledge_index, hex, hidx, hmt]

theorem build_ok_fix {fs : DocSource} {st : CacheState} {r : List Section} {st1 : CacheState}
    (h : build_knowledge_index fs st = (Except.ok r, st1)) :
    build_knowledge_index fs st1 = (Except.ok r, st1) := by
  by_cases hex : fs.doc_exists = false
  · unfold build_knowledge_index at h
    rw [if_pos hex] at h
    simp only [Prod.mk.injEq, Except.ok.injEq] at h
    obtain ⟨rfl, rfl⟩ := h
    simp [build_knowledge_index, hex]
  · have hex' : fs.doc_exists = true := by
      revert hex
      cases fs.doc_exists <;> simp
    unfold build_knowledge_index at h
    rw [if_neg hex] at h
    by_cases hhit : (st.knowledge_index.isSome && decide (st.last_mtime = some fs.mtime)) = true
    · rw [if_pos hhit] at h
      simp only [Prod.mk.injEq, Except.ok.injEq] at h
      obtain ⟨h1, rfl⟩ := h
      unfold build_knowledge_index
      rw [if_neg hex, if_pos hhit, h1]
    · rw [if_neg hhit] at h
      cases hfb : fs.doc_blocks with
      | none =>
        rw [hfb] at h
        simp at h
      | some blocks =>
        rw [hfb] at h
        simp only [Prod.mk.injEq, Except.ok.injEq] at h
        obtain ⟨rfl, rfl⟩ := h
        exact build_cache_hit hex' rfl rfl

/-! ## Claim C10 (continued): the invariant theorem -/

/-- C10: (i) every extraction step preserves the running invariant;
(ii) every section ever appended to the index has non-empty
`main_topic`, `sub_topic` and content, the `main_topic` being either
the placeholder `"General Overview"` or the non-blank trimmed text of a
level-1-styled paragraph of the document, the `sub_topic` falling back
to `main_topic` when the raw sub-topic is empty, and the content being
a trimmed non-empty join of accumulated lines; (iii) the invariant is
preserved across every cache rebuild. -/
theorem section_invariant :
    (∀ (blocks : List Block) (st : ExtractState) (b : Block), b ∈ blocks →
      StateOk blocks st → StateOk blocks (processBlock st b)) ∧
    (∀ (blocks : List Block) (s : Section), s ∈ build_index_from_blocks blocks →
      SectionOk blocks s) ∧
    (∀ (blocks : List Block) (s : Section), s ∈ build_index_from_blocks blocks →
      ∃ rawSub, s.sub_topic = if rawSub = "" then s.main_topic else rawSub) ∧
    (∀ (fs : DocSource) (st : CacheState) (res : List Section) (st1 : CacheState),
      build_knowledge_index fs st = (Except.ok res, st1) →
      (∀ idx, st.knowledge_index = some idx → ∀ s ∈ idx, SectionOkAbs s) →
      (∀ s ∈ res, SectionOkAbs s) ∧
        ∀ idx1, st1.knowledge_index = some idx1 → ∀ s ∈ idx1, SectionOkAbs s) := by
  refine ⟨fun blocks st b hb hst => processBlock_StateOk st b hb hst,
    build_index_sectionOk,
    ?_, ?_⟩
  · intro blocks s hs
    obtain ⟨rawSub, _, hsub⟩ := build_index_searchKeyOk blocks s hs
    exact ⟨rawSub, hsub⟩
  intro fs st res st1 hbuild hcache
  by_cases hex : fs.doc_exists = false
  · unfold build_knowledge_index at hbuild
    rw [if_pos hex] at hbuild
    simp only [Prod.mk.injEq, Except.ok.injEq] at hbuild
    obtain ⟨rfl, rfl⟩ := hbuild
    exact ⟨by simp, hcache⟩
  · unfold build_knowledge_index at hbuild
    rw [if_neg hex] at hbuild
    by_cases hhit : (st.knowledge_index.isSome && decide (st.last_mtime = some fs.mtime)) = true
    · rw [if_pos hhit] at hbuild
      simp only [Prod.mk.injEq, Except.ok.injEq] at hbuild
      obtain ⟨h1, rfl⟩ := hbuild
      have hhit' : st.knowledge_index.isSome = true ∧ st.last_mtime = some fs.mtime := by
        simpa using hhit
      obtain ⟨idx, hidx⟩ := Option.isSome_iff_exists.mp hhit'.1
      have hres : res = idx := by
        rw [← h1, hidx]
        rfl
      refine ⟨?_, hcache⟩
      rw [hres]
      exact hcache idx hidx
    · rw [if_neg hhit] at hbuild
      cases hfb : fs.doc_blocks with
      | none =>
        rw [hfb] at hbuild
        simp at hbuild
      | some blocks =>
        rw [hfb] at hbuild
        simp only [Prod.mk.injEq, Except.ok.injEq] at hbuild
        obtain ⟨rfl, rfl⟩ := hbuild
        have habs : ∀ s ∈ build_index_from_blocks blocks, SectionOkAbs s :=
          fun s hs => SectionOk_toAbs (build_index_sectionOk blocks s hs)
        refine ⟨habs, ?_⟩
        intro idx1 hidx1 s hs
        simp only [Option.some.injEq] at hidx1
        subst hidx1
        exact habs s hs

/-- Witness for C10 at the `[H1:"A", P:"x"]` document and a fresh cache. -/
theorem section_invariant_witness :
    SectionOk [Block.para "A" "Heading 1" false, Block.para "x" "Normal" false]
      { main_topic := "A", sub_topic := "A", content := "x", search_key := "a " } ∧
    (∀ s ∈ [{ main_topic := "A", sub_topic := "A", content := "x", search_key := "a " }],
      SectionOkAbs s) := by
  constructor
  · exact section_invariant.2.1
      [Block.para "A" "Heading 1" false, Block.para "x" "Normal" false]
      { main_topic := "A", sub_topic := "A", content := "x", search_key := "a " } (by decide)
  · exact (section_invariant.2.2.2 docABx initialCacheState
      [{ main_topic := "A", sub_topic := "A", content := "x", search_key := "a " }]
      { knowledge_index :=
          some [{ main_topic := "A", sub_topic := "A", content := "x", search_key := "a " }]
        last_mtime := some 5 }
      rfl (by intro idx h; simp [initialCacheState] at h)).1

/-! ## Claim C3: cache hit returns the cached index; rebuild idempotent -/

/-- C3: with the document present, a populated cache and a matching
stored timestamp, `build_knowledge_index` returns the cached sequence
itself with the module state untouched; and any successful call is a
fixpoint, so calling again with no source change yields the identical
index and state. -/
theorem cache_hit_idempotent :
    (∀ (fs : DocSource) (st : CacheState) (idx : List Section),
      fs.doc_exists = true → st.knowledge_index = some idx →
      st.last_mtime = some fs.mtime →
      build_knowledge_index fs st = (Except.ok idx, st)) ∧
    (∀ (fs : DocSource) (st : CacheState) (r : List Section) (st1 : CacheState),
      build_knowledge_index fs st = (Except.ok r, st1) →
      build_knowledge_index fs st1 = (Except.ok r, st1)) :=
  ⟨fun _ _ _ hex hidx hmt => build_cache_hit hex hidx hmt,
   fun _ _ _ _ h => build_ok_fix h⟩

/-- Witness for C3: a concrete cache hit, and idempotence after a
concrete miss-then-rebuild. -/
theorem cache_hit_idempotent_witness :
    build_knowledge_index docABx
        { knowledge_index := some [secSample], last_mtime := some 5 } =
      (Except.ok [secSample],
       { knowledge_index := some [secSample], last_mtime := some 5 }) ∧
    build_knowledge_index docMissing initialCacheState =
      (Except.ok [], initialCacheState) :=
  ⟨cache_hit_idempotent.1 docABx
      { knowledge_index := some [secSample], last_mtime := some 5 } [secSample] rfl rfl rfl,
   cache_hit_idempotent.2 docMissing initialCacheState [] initialCacheState rfl⟩

/-! ## Claim C4: behaviour when the source document is unavailable -/

/-- Counterexample for C4: on a document that exists but cannot be
parsed (`Document(...)` raises), `build_knowledge_index` propagates the
exception instead of returning a result value — the claimed "missing
*or unreadable* always yields a result, never an unhandled exception"
is false for the unreadable case. -/
theorem source_unavailable_counterexample :
    (build_knowledge_index docBroken initialCacheState).fst = Except.error () := rfl

/-- C4 amended: when the document is *missing*, `build_knowledge_index`
returns the empty sequence with no state change and no exception; and
whenever the document parses (readable), the call returns a result
value.  Only the exists-but-unreadable case propagates an exception. -/
theorem source_missing_amended :
    ∀ (fs : DocSource) (st : CacheState),
      (fs.doc_exists = false → build_knowledge_index fs st = (Except.ok [], st)) ∧
      (∀ blocks, fs.doc_blocks = some blocks →
        ∃ r st1, build_knowledge_index fs st = (Except.ok r, st1)) := by
  intro fs st
  constructor
  · intro hex
    simp [build_knowledge_index, hex]
  · intro blocks hfb
    by_cases hex : fs.doc_exists = false
    · exact ⟨[], st, by simp [build_knowledge_index, hex]⟩
    · by_cases hhit : (st.knowledge_index.isSome && decide (st.last_mtime = some fs.mtime)) = true
      · refine ⟨st.knowledge_index.getD [], st, ?_⟩
        unfold build_knowledge_index
        rw [if_neg hex, if_pos hhit]
      · refine ⟨build_index_from_blocks blocks,
          { knowledge_index := some (build_index_from_blocks blocks)
            last_mtime := some fs.mtime }, ?_⟩
        unfold build_knowledge_index
        rw [if_neg hex, if_neg hhit, hfb]

/-- Witness for C4 amended: the missing-document case returns `ok []`,
and a readable empty document returns a result. -/
theorem source_missing_amended_witness :
    build_knowledge_index docMissing initialCacheState =
      (Except.ok [], initialCacheState) ∧
    ∃ r st1, build_knowledge_index docEmptyBody initialCacheState = (Except.ok r, st1) :=
  ⟨(source_missing_amended docMissing initialCacheState).1 rfl,
   (source_missing_amended docEmptyBody initialCacheState).2 [] rfl⟩

/-! ## Helper lemmas: the ranker -/

theorem mem_searchCandidates {WRatio partialRatio : String → String → ℚ} {query : String}
    {mf : Option String} {kb : List Section} {r : ScoredSection}
    (h : r ∈ searchCandidates WRatio partialRatio query mf kb) :
    r.sec ∈ kb ∧ passesMainFilter mf r.sec = true ∧
      r.score = sectionScore WRatio partialRatio query r.sec ∧ 40 < r.score := by
  unfold searchCandidates at h
  obtain ⟨a, ha, hfa⟩ := List.mem_filterMap.mp h
  by_cases h1 : passesMainFilter mf a = true
  · rw [if_pos h1] at hfa
    by_cases h2 : (40 : ℚ) < sectionScore WRatio partialRatio query a
    · rw [if_pos h2] at hfa
      injection hfa with hfa
      subst hfa
      exact ⟨ha, h1, rfl, h2⟩
    · rw [if_neg h2] at hfa
      exact absurd hfa (by simp)
  · rw [if_neg h1] at hfa
    exact absurd hfa (by simp)

theorem searchCandidates_mem_of {WRatio partialRatio : String → String → ℚ} {query : String}
    {mf : Option String} {kb : List Section} {item : Section} (hmem : item ∈ kb)
    (hfilter : passesMainFilter mf item = true)
    (hscore : 40 < sectionScore WRatio partialRatio query item) :
    (⟨item, sectionScore WRatio partialRatio query item⟩ : ScoredSection) ∈
      searchCandidates WRatio partialRatio query mf kb := by
  unfold searchCandidates
  refine List.mem_filterMap.mpr ⟨item, hmem, ?_⟩
  rw [if_pos hfilter, if_pos hscore]

theorem mem_insertScoredDesc :
    ∀ {l : List ScoredSection} {x b : ScoredSection},
      b ∈ insertScoredDesc x l → b = x ∨ b ∈ l := by
  intro l
  induction l with
  | nil =>
    intro x b hb
    simpa [insertScoredDesc] using hb
  | cons y ys ih =>
    intro x b hb
    unfold insertScoredDesc at hb
    split at hb
    · rcases List.mem_cons.mp hb with rfl | h
      · exact Or.inr (List.mem_cons_self _ _)
      · rcases ih h with rfl | h2
        · exact Or.inl rfl
        · exact Or.inr (List.mem_cons_of_mem _ h2)
    · rcases List.mem_cons.mp hb with rfl | h
      · exact Or.inl rfl
      · exact Or.inr h

theorem insertScoredDesc_pairwise {x : ScoredSection} {l : List ScoredSection}
    (h : List.Pairwise (fun a b => b.score ≤ a.score) l) :
    List.Pairwise (fun a b => b.score ≤ a.score) (insertScoredDesc x l) := by
  induction l with
  | nil => simp [insertScoredDesc]
  | cons y ys ih =>
    rw [List.pairwise_cons] at h
    obtain ⟨hy, hys⟩ := h
    unfold insertScoredDesc
    split
    · rename_i hlt
      rw [List.pairwise_cons]
      refine ⟨?_, ih hys⟩
      intro b hb
      rcases mem_insertScoredDesc hb with rfl | hbys
      · exact le_of_lt hlt
      · exact hy b hbys
    · rename_i hge
      rw [List.pairwise_cons]
      refine ⟨?_, List.pairwise_cons.mpr ⟨hy, hys⟩⟩
      intro b hb
      rcases List.mem_cons.mp hb with rfl | hbys
      · exact le_of_not_lt hge
      · exact le_trans (hy b hbys) (le_of_not_lt hge)

theorem sortScoredDesc_pairwise (l : List ScoredSection) :
    List.Pairwise (fun a b => b.score ≤ a.score) (sortScoredDesc l) := by
  induction l with
  | nil => simp [sortScoredDesc]
  | cons x xs ih => exact insertScoredDesc_pairwise ih

theorem insertScoredDesc_perm (x : ScoredSection) (l : List ScoredSection) :
    List.Perm (insertScoredDesc x l) (x :: l) := by
  induction l with
  | nil => exact List.Perm.refl _
  | cons y ys ih =>
    unfold insertScoredDesc
    split
    · exact List.Perm.trans (List.Perm.cons y ih) (List.Perm.swap x y ys)
    · exact List.Perm.refl _

theorem sortScoredDesc_perm : ∀ l : List ScoredSection, List.Perm (sortScoredDesc l) l := by
  intro l
  induction l with
  | nil => exact List.Perm.refl _
  | cons x xs ih =>
    exact List.Perm.trans (insertScoredDesc_perm x (sortScoredDesc xs)) (List.Perm.cons x ih)

theorem filter_insertScoredDesc_of_eq {x : ScoredSection} {s : ℚ} (hx : x.score = s) :
    ∀ l : List ScoredSection,
      (insertScoredDesc x l).filter (fun y => decide (y.score = s)) =
        x :: l.filter (fun y => decide (y.score = s)) := by
  intro l
  induction l with
  | nil => simp [insertScoredDesc, hx]
  | cons y ys ih =>
    unfold insertScoredDesc
    split
    · rename_i hlt
      have hyne : ¬ y.score = s := by
        intro hys
        rw [hx, ← hys] at hlt
        exact absurd hlt (lt_irrefl _)
      simp only [List.filter_cons]
      rw [if_neg (by simpa using hyne), if_neg (by simpa using hyne)]
      exact ih
    · simp only [List.filter_cons]
      rw [if_pos (by simpa using hx)]

theorem filter_insertScoredDesc_of_ne {x : ScoredSection} {s : ℚ} (hx : ¬ x.score = s) :
    ∀ l : List ScoredSection,
      (insertScoredDesc x l).filter (fun y => decide (y.score = s)) =
        l.filter (fun y => decide (y.score = s)) := by
  intro l
  induction l with
  | nil => simp [insertScoredDesc, hx]
  | cons y ys ih =>
    unfold insertScoredDesc
    split
    · simp only [List.filter_cons]
      rw [ih]
    · simp only [List.filter_cons]
      rw [if_neg (by simpa using hx)]

theorem filter_sortScoredDesc (s : ℚ) (l : List ScoredSection) :
    (sortScoredDesc l).filter (fun y => decide (y.score = s)) =
      l.filter (fun y => decide (y.score = s)) := by
  induction l with
  | nil => rfl
  | cons x xs ih =>
    show (insertScoredDesc x (sortScoredDesc xs)).filter _ = _
    by_cases hxs : x.score = s
    · rw [filter_insertScoredDesc_of_eq hxs, ih, List.filter_cons,
        if_pos (by simpa using hxs)]
    · rw [filter_insertScoredDesc_of_ne hxs, ih, List.filter_cons,
        if_neg (by simpa using hxs)]

theorem smart_search_kb_sec_mem {WRatio partialRatio : String → String → ℚ} {query : String}
    {mf : Option String} {top_k : Int} {kb : List Section} {r : ScoredSection}
    (h : r ∈ smart_search_kb WRatio partialRatio query mf top_k kb) : r.sec ∈ kb := by
  unfold smart_search_kb pySliceTo at h
  have h2 : r ∈ sortScoredDesc (searchCandidates WRatio partialRatio query mf kb) := by
    split at h
    · exact List.mem_of_mem_take h
    · exact List.mem_of_mem_take h
  have h3 : r ∈ searchCandidates WRatio partialRatio query mf kb :=
    ((sortScoredDesc_perm _).mem_iff).mp h2
  exact (mem_searchCandidates h3).1

/-! ## Claim C1: score formula and the `> 40` relevance floor -/

/-- C1: for every scorer pair, query and section, the final score is
`0.7 * title_score + 0.3 * content_score`, and a section that passes
the main-topic filter enters the candidate list iff its final score
strictly exceeds 40 — a score of exactly 40 is excluded, 40.01 is
included (real arithmetic modelled exactly over `ℚ`). -/
theorem relevance_floor :
    ∀ (WRatio partialRatio : String → String → ℚ) (query : String)
      (mf : Option String) (kb : List Section) (item : Section),
      sectionScore WRatio partialRatio query item =
        (7 / 10) * WRatio query item.sub_topic +
          (3 / 10) * partialRatio (pyLower query) (pyLower item.content) ∧
      (item ∈ kb → passesMainFilter mf item = true →
        ((⟨item, sectionScore WRatio partialRatio query item⟩ : ScoredSection) ∈
            searchCandidates WRatio partialRatio query mf kb ↔
          40 < sectionScore WRatio partialRatio query item)) := by
  intro WRatio partialRatio query mf kb item
  constructor
  · unfold sectionScore
    ring
  · intro hmem hfilter
    constructor
    · intro h
      exact (mem_searchCandidates h).2.2.2
    · intro h
      exact searchCandidates_mem_of hmem hfilter h

/-- Witness for C1: with both similarity scores constantly `40.01` the
final score is `40.01 > 40` and the section is included. -/
theorem relevance_floor_witness :
    (⟨secSample,
        sectionScore (constScore (4001 / 100)) (constScore (4001 / 100)) "q" secSample⟩ :
      ScoredSection) ∈
      searchCandidates (constScore (4001 / 100)) (constScore (4001 / 100)) "q" none
        [secSample] := by
  refine ((relevance_floor (constScore (4001 / 100)) (constScore (4001 / 100)) "q" none
    [secSample] secSample).2 (by simp) rfl).mpr ?_
  norm_num [sectionScore, constScore]

/-! ## Claim C6: descending stable order, bounded length -/

/-- Counterexample for C6: with `top_k = -1` (a legal Python `int`),
`results[:top_k]` drops the last element instead of returning at most
`top_k` items, so the returned length `1` is not `≤ -1`. -/
theorem ranking_topk_counterexample :
    (smart_search_kb (constScore 100) (constScore 100) "q" none (-1) kbTwo).length = 1 ∧
    ¬ (((smart_search_kb (constScore 100) (constScore 100) "q" none (-1) kbTwo).length : Int)
        ≤ -1) := by
  have hlen : (smart_search_kb (constScore 100) (constScore 100) "q" none (-1) kbTwo).length
      = 1 := by
    norm_num [smart_search_kb, pySliceTo, sortScoredDesc, insertScoredDesc, searchCandidates,
      sectionScore, passesMainFilter, constScore, kbTwo]
  refine ⟨hlen, ?_⟩
  rw [hlen]
  norm_num

/-- C6 amended: for every *non-negative* `top_k`, `smart_search`
returns a prefix of the stable descending sort of the surviving
candidates: scores are weakly descending, the length is at most
`top_k`, and ties retain encounter order (the sorted list filtered to
any fixed score equals the candidate list filtered to that score). -/
theorem ranking_sorted_amended :
    ∀ (WRatio partialRatio : String → String → ℚ) (query : String) (mf : Option String)
      (top_k : Int) (kb : List Section), 0 ≤ top_k →
      List.Pairwise (fun a b => b.score ≤ a.score)
        (smart_search_kb WRatio partialRatio query mf top_k kb) ∧
      ((smart_search_kb WRatio partialRatio query mf top_k kb).length : Int) ≤ top_k ∧
      (∃ rest, sortScoredDesc (searchCandidates WRatio partialRatio query mf kb) =
        smart_search_kb WRatio partialRatio query mf top_k kb ++ rest) ∧
      ∀ s : ℚ,
        (sortScoredDesc (searchCandidates WRatio partialRatio query mf kb)).filter
            (fun y => decide (y.score = s)) =
          (searchCandidates WRatio partialRatio query mf kb).filter
            (fun y => decide (y.score = s)) := by
  intro WRatio partialRatio query mf top_k kb hk
  have hslice : smart_search_kb WRatio partialRatio query mf top_k kb =
      (sortScoredDesc (searchCandidates WRatio partialRatio query mf kb)).take top_k.toNat := by
    unfold smart_search_kb pySliceTo
    rw [if_neg (not_lt.mpr hk)]
  refine ⟨?_, ?_, ?_, fun s => filter_sortScoredDesc s _⟩
  · rw [hslice]
    exact List.Pairwise.sublist (List.take_sublist _ _) (sortScoredDesc_pairwise _)
  · rw [hslice]
    have h1 : ((sortScoredDesc (searchCandidates WRatio partialRatio query mf kb)).take
        top_k.toNat).length ≤ top_k.toNat := List.length_take_le _ _
    calc (((sortScoredDesc (searchCandidates WRatio partialRatio query mf kb)).take
          top_k.toNat).length : Int) ≤ (top_k.toNat : Int) := by exact_mod_cast h1
      _ = top_k := Int.toNat_of_nonneg hk
  · rw [hslice]
    exact ⟨(sortScoredDesc (searchCandidates WRatio partialRatio query mf kb)).drop
      top_k.toNat, (List.take_append_drop _ _).symm⟩

/-- Witness for C6 amended, at `top_k = 3` over the two-section index. -/
theorem ranking_sorted_amended_witness :
    List.Pairwise (fun a b => b.score ≤ a.score)
      (smart_search_kb (constScore 100) (constScore 100) "q" none 3 kbTwo) ∧
    ((smart_search_kb (constScore 100) (constScore 100) "q" none 3 kbTwo).length : Int) ≤ 3 ∧
    (∃ rest, sortScoredDesc (searchCandidates (constScore 100) (constScore 100) "q" none kbTwo) =
      smart_search_kb (constScore 100) (constScore 100) "q" none 3 kbTwo ++ rest) ∧
    ∀ s : ℚ,
      (sortScoredDesc (searchCandidates (constScore 100) (constScore 100) "q" none kbTwo)).filter
          (fun y => decide (y.score = s)) =
        (searchCandidates (constScore 100) (constScore 100) "q" none kbTwo).filter
          (fun y => decide (y.score = s)) :=
  ranking_sorted_amended (constScore 100) (constScore 100) "q" none 3 kbTwo (by norm_num)

/-! ## Claim C9: search does not disturb the cached index -/

/-- C9: every result of `smart_search` is a fresh record pairing a
member of the index with an added score (the `Section` records
themselves carry no score field), a cache hit leaves the module state
untouched, and any successful call is a fixpoint: an identical second
call over an unchanged document observes the same index and returns the
same results. -/
theorem search_frame_effect :
    (∀ (WRatio partialRatio : String → String → ℚ) (query : String) (mf : Option String)
      (top_k : Int) (kb : List Section) (r : ScoredSection),
      r ∈ smart_search_kb WRatio partialRatio query mf top_k kb → r.sec ∈ kb) ∧
    (∀ (WRatio partialRatio : String → String → ℚ) (fs : DocSource) (st : CacheState)
      (query : String) (mf : Option String) (top_k : Int) (idx : List Section),
      fs.doc_exists = true → st.knowledge_index = some idx → st.last_mtime = some fs.mtime →
      smart_search WRatio partialRatio fs st query mf top_k =
        (Except.ok (smart_search_kb WRatio partialRatio query mf top_k idx), st)) ∧
    (∀ (WRatio partialRatio : String → String → ℚ) (fs : DocSource) (st : CacheState)
      (query : String) (mf : Option String) (top_k : Int) (res : List ScoredSection)
      (st1 : CacheState),
      smart_search WRatio partialRatio fs st query mf top_k = (Except.ok res, st1) →
      smart_search WRatio partialRatio fs st1 query mf top_k = (Except.ok res, st1)) := by
  refine ⟨fun _ _ _ _ _ _ _ h => smart_search_kb_sec_mem h, ?_, ?_⟩
  · intro WRatio partialRatio fs st query mf top_k idx hex hidx hmt
    unfold smart_search
    rw [build_cache_hit hex hidx hmt]
  · intro WRatio partialRatio fs st query mf top_k res st1 h
    unfold smart_search at h ⊢
    cases hb : build_knowledge_index fs st with
    | mk exc st' =>
      cases exc with
      | error e =>
        rw [hb] at h
        simp at h
      | ok kb =>
        rw [hb] at h
        simp only [Prod.mk.injEq, Except.ok.injEq] at h
        obtain ⟨hres, rfl⟩ := h
        rw [build_ok_fix hb]
        show (Except.ok (smart_search_kb WRatio partialRatio query mf top_k kb), st') =
          (Except.ok res, st')
        rw [hres]

/-- Witness for C9: a concrete result record is in the index; a
concrete cache hit leaves the state unchanged; a concrete successful
call is a fixpoint. -/
theorem search_frame_effect_witness :
    ((⟨secSample,
        sectionScore (constScore 100) (constScore 100) "q" secSample⟩ : ScoredSection).sec ∈
      [secSample]) ∧
    smart_search (constScore 100) (constScore 100) docABx
        { knowledge_index := some [secSample], last_mtime := some 5 } "q" none 3 =
      (Except.ok (smart_search_kb (constScore 100) (constScore 100) "q" none 3 [secSample]),
       { knowledge_index := some [secSample], last_mtime := some 5 }) ∧
    smart_search (constScore 100) (constScore 100) docEmptyBody
        { knowledge_index := some [], last_mtime := some 3 } "q" none 3 =
      (Except.ok [], { knowledge_index := some [], last_mtime := some 3 }) := by
  refine ⟨?_, ?_, ?_⟩
  · refine search_frame_effect.1 (constScore 100) (constScore 100) "q" none 3 [secSample] _ ?_
    norm_num [smart_search_kb, pySliceTo, sortScoredDesc, insertScoredDesc, searchCandidates,
      sectionScore, passesMainFilter, constScore]
    exact List.mem_cons_self _ _
  · exact search_frame_effect.2.1 (constScore 100) (constScore 100) docABx
      { knowledge_index := some [secSample], last_mtime := some 5 } "q" none 3 [secSample]
      rfl rfl rfl
  · exact search_frame_effect.2.2 (constScore 100) (constScore 100) docEmptyBody
      initialCacheState "q" none 3 [] { knowledge_index := some [], last_mtime := some 3 } rfl

/-! ## Helper lemmas: content deduplication -/

theorem mem_pyDictInsertByContent {acc : List ScoredSection} {r x : ScoredSection}
    (h : x ∈ pyDictInsertByContent acc r) : x ∈ acc ∨ x = r := by
  unfold pyDictInsertByContent at h
  split at h
  · obtain ⟨y, hy, hyx⟩ := List.mem_map.mp h
    by_cases hc : y.sec.content = r.sec.content
    · rw [if_pos hc] at hyx
      exact Or.inr hyx.symm
    · rw [if_neg hc] at hyx
      exact Or.inl (hyx ▸ hy)
  · rcases List.mem_append.mp h with h0 | h0
    · exact Or.inl h0
    · exact Or.inr (List.mem_singleton.mp h0)

theorem dedup_mem_sub :
    ∀ (l acc : List ScoredSection) (x : ScoredSection),
      x ∈ List.foldl pyDictInsertByContent acc l → x ∈ acc ∨ x ∈ l := by
  intro l
  induction l with
  | nil =>
    intro acc x h
    exact Or.inl (by simpa using h)
  | cons r t ih =>
    intro acc x h
    rw [List.foldl_cons] at h
    rcases ih _ x h with h0 | h0
    · rcases mem_pyDictInsertByContent h0 with h1 | rfl
      · exact Or.inl h1
      · exact Or.inr (List.mem_cons_self _ _)
    · exact Or.inr (List.mem_cons_of_mem _ h0)

theorem insert_content_mem (acc : List ScoredSection) (r : ScoredSection) :
    ∃ y ∈ pyDictInsertByContent acc r, y.sec.content = r.sec.content := by
  unfold pyDictInsertByContent
  split
  · rename_i hany
    obtain ⟨y, hy, hyc⟩ := List.any_eq_true.mp hany
    have hyc' : y.sec.content = r.sec.content := of_decide_eq_true hyc
    exact ⟨r, List.mem_map.mpr ⟨y, hy, by rw [if_pos hyc']⟩, rfl⟩
  · exact ⟨r, List.mem_append.mpr (Or.inr (List.mem_singleton.mpr rfl)), rfl⟩

theorem insert_content_preserved {acc : List ScoredSection} (x : ScoredSection)
    (hx : x ∈ acc) (r : ScoredSection) :
    ∃ y ∈ pyDictInsertByContent acc r, y.sec.content = x.sec.content := by
  unfold pyDictInsertByContent
  split
  · by_cases hc : x.sec.content = r.sec.content
    · exact ⟨r, List.mem_map.mpr ⟨x, hx, by rw [if_pos hc]⟩, hc.symm⟩
    · exact ⟨x, List.mem_map.mpr ⟨x, hx, by rw [if_neg hc]⟩, rfl⟩
  · exact ⟨x, List.mem_append.mpr (Or.inl hx), rfl⟩

theorem dedup_content_cover :
    ∀ (l acc : List ScoredSection) (x : ScoredSection), x ∈ acc ∨ x ∈ l →
      ∃ y ∈ List.foldl pyDictInsertByContent acc l, y.sec.content = x.sec.content := by
  intro l
  induction l with
  | nil =>
    intro acc x hx
    rcases hx with hx | hx
    · exact ⟨x, by simpa using hx, rfl⟩
    · exact absurd hx (List.not_mem_nil x)
  | cons r t ih =>
    intro acc x hx
    rw [List.foldl_cons]
    rcases hx with hx | hx
    · obtain ⟨y1, hy1, hc1⟩ := insert_content_preserved x hx r
      obtain ⟨y, hy, hc⟩ := ih (pyDictInsertByContent acc r) y1 (Or.inl hy1)
      exact ⟨y, hy, by rw [hc, hc1]⟩
    · rcases List.mem_cons.mp hx with rfl | hxt
      · obtain ⟨y1, hy1, hc1⟩ := insert_content_mem acc x
        obtain ⟨y, hy, hc⟩ := ih (pyDictInsertByContent acc x) y1 (Or.inl hy1)
        exact ⟨y, hy, by rw [hc, hc1]⟩
      · exact ih _ x (Or.inr hxt)

theorem insert_contents_nodup {acc : List ScoredSection} {r : ScoredSection}
    (h : (acc.map (fun x => x.sec.content)).Nodup) :
    ((pyDictInsertByContent acc r).map (fun x => x.sec.content)).Nodup := by
  unfold pyDictInsertByContent
  split
  · rename_i hany
    have hmap : ((acc.map (fun x => if x.sec.content = r.sec.content then r else x)).map
        (fun x => x.sec.content)) = acc.map (fun x => x.sec.content) := by
      rw [List.map_map]
      apply List.map_congr_left
      intro x _
      by_cases hc : x.sec.content = r.sec.content
      · simp [Function.comp, hc]
      · simp [Function.comp, hc]
    rw [hmap]
    exact h
  · rename_i hany
    rw [List.map_append]
    refine List.Nodup.append h (List.nodup_singleton _) ?_
    intro a ha hb
    rw [List.map_singleton, List.mem_singleton] at hb
    subst hb
    obtain ⟨x, hx, hxc⟩ := List.mem_map.mp ha
    exact hany (List.any_eq_true.mpr ⟨x, hx, decide_eq_true hxc⟩)

theorem dedup_contents_nodup :
    ∀ (l acc : List ScoredSection), ((acc.map (fun x => x.sec.content)).Nodup) →
      (((List.foldl pyDictInsertByContent acc l).map (fun x => x.sec.content)).Nodup) := by
  intro l
  induction l with
  | nil =>
    intro acc h
    simpa using h
  | cons r t ih =>
    intro acc h
    rw [List.foldl_cons]
    exact ih _ (insert_contents_nodup h)

theorem insert_length_le (acc : List ScoredSection) (r : ScoredSection) :
    (pyDictInsertByContent acc r).length ≤ acc.length + 1 := by
  unfold pyDictInsertByContent
  split
  · rw [List.length_map]
    omega
  · rw [List.length_append]
    simp

theorem dedup_length_le :
    ∀ (l acc : List ScoredSection),
      (List.foldl pyDictInsertByContent acc l).length ≤ acc.length + l.length := by
  intro l
  induction l with
  | nil =>
    intro acc
    simp
  | cons r t ih =>
    intro acc
    rw [List.foldl_cons]
    calc (List.foldl pyDictInsertByContent (pyDictInsertByContent acc r) t).length ≤
        (pyDictInsertByContent acc r).length + t.length := ih _
      _ ≤ acc.length + 1 + t.length := by
        have := insert_length_le acc r
        omega
      _ = acc.length + (r :: t).length := by
        rw [List.length_cons]
        omega

theorem smart_search_kb_length_le_three (WRatio partialRatio : String → String → ℚ)
    (query : String) (mf : Option String) (kb : List Section) :
    (smart_search_kb WRatio partialRatio query mf 3 kb).length ≤ 3 := by
  unfold smart_search_kb pySliceTo
  rw [if_neg (by norm_num)]
  exact List.length_take_le _ _

/-! ## Claim C5: the filtered-search presentation -/

/-- Counterexample for C5: `check_limits_and_compliance` in this module
applies no 5-section cap — two top-3 searches over six distinct-content
sections survive deduplication in full, so six sections are handed to
the presenter, and the rendered markdown contains a sixth section
header. -/
theorem presenter_cap_counterexample :
    (check_limits_sections (constScore 100) (constScore 100) kbSix "retention").length = 6 ∧
    ¬ ((check_limits_sections (constScore 100) (constScore 100) kbSix "retention").length
        ≤ 5) ∧
    pyIn "## 6."
      (check_limits_and_compliance (constScore 100) (constScore 100) kbSix "retention") =
      true := by
  have hlen : (check_limits_sections (constScore 100) (constScore 100) kbSix
      "retention").length = 6 := by
    norm_num [check_limits_sections, dedupByContent, pyDictInsertByContent, smart_search_kb,
      pySliceTo, sortScoredDesc, insertScoredDesc, searchCandidates, sectionScore,
      passesMainFilter, constScore, kbSix, pyIn, pyLower, listOccurs, listStarts]
    decide
  have hmd : pyIn "## 6."
      (check_limits_and_compliance (constScore 100) (constScore 100) kbSix "retention") =
      true := by
    norm_num [check_limits_and_compliance, check_limits_sections, dedupByContent,
      pyDictInsertByContent, smart_search_kb, pySliceTo, sortScoredDesc, insertScoredDesc,
      searchCandidates, sectionScore, passesMainFilter, constScore, kbSix,
      format_results_as_markdown, resultLines, resultBlockLines, truncatedContent]
    decide
  exact ⟨hlen, by omega, hmd⟩

/-- C5 amended: the filtered search returns the union of the two
per-filter-term searches deduplicated by exact content equality (dict
semantics: first-occurrence position, last record wins), every surviving
content is represented, the presented list has at most 6 sections (two
top-3 searches) — there is **no** 5-section cap in this presenter — and
each presented content is truncated at 2000 characters with a
truncation marker exactly when it exceeds that budget. -/
theorem filtered_search_amended :
    ∀ (WRatio partialRatio : String → String → ℚ) (kb : List Section) (topic : String),
      (∀ x ∈ check_limits_sections WRatio partialRatio kb topic,
        x ∈ smart_search_kb WRatio partialRatio topic (some "restrictions") 3 kb ++
            smart_search_kb WRatio partialRatio topic (some "limits") 3 kb) ∧
      (∀ x ∈ smart_search_kb WRatio partialRatio topic (some "restrictions") 3 kb ++
            smart_search_kb WRatio partialRatio topic (some "limits") 3 kb,
        ∃ y ∈ check_limits_sections WRatio partialRatio kb topic,
          y.sec.content = x.sec.content) ∧
      ((check_limits_sections WRatio partialRatio kb topic).map
          (fun x => x.sec.content)).Nodup ∧
      (check_limits_sections WRatio partialRatio kb topic).length ≤ 6 ∧
      (∀ c : String, pyLen c ≤ 2000 → truncatedContent c = c) ∧
      (∀ c : String, 2000 < pyLen c →
        truncatedContent c =
          pyTakeChars c 2000 ++ "\n...(content truncated due to length)...") := by
  intro WRatio partialRatio kb topic
  refine ⟨?_, ?_, ?_, ?_, ?_, ?_⟩
  · intro x hx
    unfold check_limits_sections dedupByContent at hx
    rcases dedup_mem_sub _ [] x hx with h0 | h0
    · exact absurd h0 (List.not_mem_nil x)
    · exact h0
  · intro x hx
    exact dedup_content_cover _ [] x (Or.inr hx)
  · exact dedup_contents_nodup _ [] (by simp)
  · unfold check_limits_sections dedupByContent
    calc (List.foldl pyDictInsertByContent []
        (smart_search_kb WRatio partialRatio topic (some "restrictions") 3 kb ++
          smart_search_kb WRatio partialRatio topic (some "limits") 3 kb)).length ≤
        ([] : List ScoredSection).length +
          (smart_search_kb WRatio partialRatio topic (some "restrictions") 3 kb ++
            smart_search_kb WRatio partialRatio topic (some "limits") 3 kb).length :=
        dedup_length_le _ _
      _ ≤ 6 := by
        rw [List.length_append]
        have h1 := smart_search_kb_length_le_three WRatio partialRatio topic
          (some "restrictions") kb
        have h2 := smart_search_kb_length_le_three WRatio partialRatio topic
          (some "limits") kb
        simp only [List.length_nil]
        omega
  · intro c hc
    unfold truncatedContent
    rw [if_neg (by omega)]
  · intro c hc
    unfold truncatedContent
    rw [if_pos hc]

/-- Witness for C5 amended: the truncation branches at concrete
contents (a short one kept verbatim, a 2001-character one cut and
marked), and a concrete deduplicated result covering a search hit. -/
theorem filtered_search_amended_witness :
    truncatedContent "abc" = "abc" ∧
    truncatedContent (String.mk (List.replicate 2001 'a')) =
      pyTakeChars (String.mk (List.replicate 2001 'a')) 2000 ++
        "\n...(content truncated due to length)..." := by
  constructor
  · exact (filtered_search_amended (constScore 100) (constScore 100) [] "t").2.2.2.2.1
      "abc" (by decide)
  · refine (filtered_search_amended (constScore 100) (constScore 100) [] "t").2.2.2.2.2
      (String.mk (List.replicate 2001 'a')) ?_
    show 2000 < (List.replicate 2001 'a').length
    rw [List.length_replicate]
    omega
